import Mathlib

/-!
# RandomAmericanGenerator: the lock-and-regenerate state of `src/App.js`

A shallow embedding of the `person` state held by the `App` component and of
the functions that create and update it: `generatePerson`, the updaters that
`handleGenerate` and `handleLockToggle` pass to `setPerson`, and the text
built by `handleCopyAll`.

JavaScript objects are association lists of own properties in insertion
order.  The fake-data library is a parameter: a record of operations that
thread an arbitrary provider state, so every theorem holds for every
behaviour of the library.
-/

namespace RandomAmerican

/-! ## Objects -/

/-- The values a property of `person` other than `locks` can hold: a string
drawn from the provider, or `undefined` (what reading an absent property
yields). -/
inductive Val where
  | undefined
  | str (s : String)
  deriving DecidableEq, Repr

/-- An object: its own properties, in insertion order. -/
abbrev Obj (α : Type) := List (String × α)

/-- The keys of an object, as `Object.keys(o)` lists them. -/
def Obj.keys {α : Type} (o : Obj α) : List String :=
  o.map Prod.fst

/-- The own property `o[k]`, `none` when `o` has no such property.  Reads
are modelled for names that objects do not inherit from `Object.prototype`,
which holds of the eight field names, of `locks` and of `postalCode`. -/
def Obj.read {α : Type} : Obj α → String → Option α
  | [], _ => none
  | (k1, v1) :: rest, k => if k1 = k then some v1 else Obj.read rest k

/-- Defining or assigning the property `k`: an existing property keeps its
place and takes the new value, a new property is added at the end.  This is
both `o[k] = v` and a later `k: v` in an object literal that spreads `o`. -/
def Obj.assign {α : Type} : Obj α → String → α → Obj α
  | [], k, v => [(k, v)]
  | (k1, v1) :: rest, k, v =>
      if k1 = k then (k1, v) :: rest else (k1, v1) :: Obj.assign rest k v

/-- The lock mask `person.locks`. -/
abbrev LockMask := Obj Bool

/-- Truthiness of `locks[key]`: an absent key reads as `undefined`, which is
falsy. -/
def LockMask.truthy (locks : LockMask) (key : String) : Bool :=
  match Obj.read locks key with
  | some b => b
  | none => false

/-- The `person` state: the `locks` property is kept in a field of its own,
every other own property is in `props`. -/
structure Person where
  props : Obj Val
  locks : LockMask
  deriving DecidableEq, Repr

/-- The read `person[key]` for a key other than `locks`. -/
def Person.get (person : Person) (key : String) : Val :=
  match Obj.read person.props key with
  | some v => v
  | none => Val.undefined

/-- The eight profile attributes. -/
inductive Field where
  | firstName
  | lastName
  | gender
  | state
  | city
  | streetAddress
  | zipCode
  | birthdate
  deriving DecidableEq, Repr

/-- The property name of a field. -/
def Field.key : Field → String
  | .firstName => "firstName"
  | .lastName => "lastName"
  | .gender => "gender"
  | .state => "state"
  | .city => "city"
  | .streetAddress => "streetAddress"
  | .zipCode => "zipCode"
  | .birthdate => "birthdate"

/-- The eight field names in the order of the object literal returned by
`generatePerson` (lines 35-43 and again 44-53). -/
def fieldKeys : List String :=
  ["firstName", "lastName", "gender", "state", "city", "streetAddress", "zipCode", "birthdate"]

/-! ## The fake-data provider and `generatePerson` -/

/-- A calendar date as `Date` shows it in local time. -/
structure JsDate where
  year : Nat
  month : Nat
  day : Nat
  deriving DecidableEq, Repr

/-- The text of `date.toLocaleDateString` for the locale en-US: month/day/year
without padding. -/
def JsDate.toLocaleDateString (d : JsDate) : String :=
  toString d.month ++ "/" ++ toString d.day ++ "/" ++ toString d.year

/-- The options object passed to `faker.date.birthdate`. -/
structure BirthdateOptions where
  min : Nat
  max : Nat
  mode : String
  deriving DecidableEq, Repr

/-- The operations of `faker` that `generatePerson` calls.  Each takes the
provider state (its randomness) and returns the drawn value with the next
state. -/
structure Faker (σ : Type) where
  sexType : σ → String × σ
  firstName : String → σ → String × σ
  lastName : σ → String × σ
  state : σ → String × σ
  city : σ → String × σ
  streetAddress : σ → String × σ
  zipCode : String → σ → String × σ
  birthdate : BirthdateOptions → σ → JsDate × σ

/-- The function `generatePerson` (lines 26-55): the draws in source order,
then the object literal.  The assignment `faker.locale` of line 24 configures
the provider and is part of its behaviour. -/
def generatePerson {σ : Type} (faker : Faker σ) (s0 : σ) : Person × σ :=
  let gender := faker.sexType s0
  let firstName := faker.firstName gender.1 gender.2
  let lastName := faker.lastName firstName.2
  let state := faker.state lastName.2
  let city := faker.city state.2
  let streetAddress := faker.streetAddress city.2
  let zipCode := faker.zipCode state.1 streetAddress.2
  let birthdate := faker.birthdate { min := 18, max := 80, mode := "age" } zipCode.2
  ({ props :=
      [("firstName", Val.str firstName.1),
       ("lastName", Val.str lastName.1),
       ("gender", Val.str gender.1),
       ("state", Val.str state.1),
       ("city", Val.str city.1),
       ("streetAddress", Val.str streetAddress.1),
       ("zipCode", Val.str zipCode.1),
       ("birthdate", Val.str birthdate.1.toLocaleDateString)],
     locks :=
      [("firstName", false),
       ("lastName", false),
       ("gender", false),
       ("state", false),
       ("city", false),
       ("streetAddress", false),
       ("zipCode", false),
       ("birthdate", false)] },
   birthdate.2)

/-! ## The handlers -/

/-- The statement `result[key] = prev[key]` of line 71.  For the key `locks`
it stores the lock mask of `prev`; for any other key it assigns the value
read from `prev`. -/
def assignFromPrev (result : Person) (key : String) (prev : Person) : Person :=
  if key = "locks" then { result with locks := prev.locks }
  else { result with props := Obj.assign result.props key (prev.get key) }

/-- The function `handleGenerate` passes to `setPerson` (lines 66-76). -/
def handleGenerateUpdater (newPerson prev : Person) : Person :=
  let result : Person := { props := newPerson.props, locks := prev.locks }
  (Obj.keys prev.locks).foldl
    (fun result key =>
      if prev.locks.truthy key then assignFromPrev result key prev else result)
    result

/-- The handler `handleGenerate` (lines 63-77): draw a new person, then update
the state. -/
def handleGenerate {σ : Type} (faker : Faker σ) (s : σ) (prev : Person) : Person × σ :=
  let newPerson := generatePerson faker s
  (handleGenerateUpdater newPerson.1 prev, newPerson.2)

/-- The function `handleLockToggle(field)` passes to `setPerson`
(lines 113-119). -/
def handleLockToggle (field : String) (prev : Person) : Person :=
  { prev with locks := Obj.assign prev.locks field (!prev.locks.truthy field) }

/-- The text a template literal gives for a value. -/
def Val.toText : Val → String
  | .undefined => "undefined"
  | .str s => s

/-- What `Object.entries(person)` pairs a key with. -/
inductive Entry where
  | val (v : Val)
  | locks (m : LockMask)
  deriving DecidableEq, Repr

/-- The text a template literal gives for an entry value. -/
def Entry.toText : Entry → String
  | .val v => v.toText
  | .locks _ => "[object Object]"

/-- The entries of `Object.entries(person)`: the properties in order, and the
`locks` entry, which the filter of `handleCopyAll` drops wherever it stands. -/
def Person.entries (person : Person) : List (String × Entry) :=
  person.props.map (fun kv => (kv.1, Entry.val kv.2)) ++ [("locks", Entry.locks person.locks)]

/-- The text `allText` built by `handleCopyAll` (lines 94-97). -/
def handleCopyAll (person : Person) : String :=
  "\n".intercalate
    (((person.entries).filter (fun kv => kv.1 != "locks")).map
      (fun kv => kv.1 ++ ": " ++ kv.2.toText))

/-- The field names in the order `App` renders them (lines 175-184). -/
def renderOrder : List String :=
  ["firstName", "lastName", "gender", "streetAddress", "city", "state", "zipCode", "birthdate"]

/-! ## Runs of the component -/

/-- A user action: a click on "Generate New Person", with the provider state
at that moment, or a click on the lock button of one field. -/
inductive Event (σ : Type) where
  | generate (s : σ)
  | toggle (field : Field)

/-- The state after one event. -/
def step {σ : Type} (faker : Faker σ) (person : Person) : Event σ → Person
  | .generate s => (handleGenerate faker s person).1
  | .toggle field => handleLockToggle field.key person

/-- The state after a list of events, from `useState(generatePerson())`. -/
def run {σ : Type} (faker : Faker σ) (s0 : σ) (events : List (Event σ)) : Person :=
  events.foldl (step faker) (generatePerson faker s0).1

/-- Clicking the lock buttons of the listed fields, in order. -/
def toggleAll (fields : List Field) (person : Person) : Person :=
  fields.foldl (fun p f => handleLockToggle f.key p) person

/-- Successive regenerations, one for each new person drawn. -/
def regenerateAll (fresh : List Person) (person : Person) : Person :=
  fresh.foldl (fun p newPerson => handleGenerateUpdater newPerson p) person

/-- Whether a value is a string. -/
def Val.isStr : Val → Bool
  | .str _ => true
  | .undefined => false

/-- The shape of the states the component goes through: the properties and
the lock mask both have the eight field names as keys, in the order of the
object literal of `generatePerson`, and every value is a string. -/
def Person.Shaped (person : Person) : Prop :=
  Obj.keys person.props = fieldKeys ∧ Obj.keys person.locks = fieldKeys ∧
    ∀ kv ∈ person.props, kv.2.isStr = true

/-! ## A concrete provider for the examples -/

/-- A provider whose state counts the draws: the sex alternates, the first
name depends on the requested sex, the zip code on the requested state. -/
def demoFaker : Faker Nat where
  sexType n := (if n % 2 = 0 then "female" else "male", n + 1)
  firstName sex n := (if sex = "female" then "Mary" else "John", n + 1)
  lastName n := ("Smith", n + 1)
  state n := ("Ohio", n + 1)
  city n := ("Dayton", n + 1)
  streetAddress n := ("1 Main St", n + 1)
  zipCode state n := (if state = "Ohio" then "45402" else "00000", n + 1)
  birthdate _ n := ({ year := 1990, month := 7, day := 4 }, n + 1)

/-! ## Properties of objects -/

theorem Obj.read_assign_self {α : Type} (o : Obj α) (k : String) (v : α) :
    Obj.read (Obj.assign o k v) k = some v := by
  induction o with
  | nil => simp [Obj.assign, Obj.read]
  | cons kv rest ih =>
    obtain ⟨k1, v1⟩ := kv
    by_cases h : k1 = k
    · simp [Obj.assign, Obj.read, h]
    · simp [Obj.assign, Obj.read, h, ih]

theorem Obj.read_assign_ne {α : Type} (o : Obj α) (k k2 : String) (v : α) (hne : k2 ≠ k) :
    Obj.read (Obj.assign o k v) k2 = Obj.read o k2 := by
  induction o with
  | nil =>
    have h : ¬ k = k2 := fun e => hne e.symm
    simp [Obj.assign, Obj.read, h]
  | cons kv rest ih =>
    obtain ⟨k1, v1⟩ := kv
    by_cases h : k1 = k
    · subst h
      have h2 : ¬ k1 = k2 := fun e => hne e.symm
      simp [Obj.assign, Obj.read, h2]
    · by_cases h3 : k1 = k2
      · subst h3
        simp [Obj.assign, Obj.read, h]
      · simp [Obj.assign, Obj.read, h, h3, ih]

theorem Obj.read_eq_none_iff {α : Type} (o : Obj α) (k : String) :
    Obj.read o k = none ↔ k ∉ Obj.keys o := by
  induction o with
  | nil => simp [Obj.read, Obj.keys]
  | cons kv rest ih =>
    obtain ⟨k1, v1⟩ := kv
    by_cases h : k1 = k
    · simp [Obj.read, Obj.keys, h]
    · have h2 : ¬ k = k1 := fun e => h e.symm
      simp only [Obj.keys] at ih
      simp [Obj.read, Obj.keys, h, h2, ih]

theorem Obj.keys_assign_of_mem {α : Type} (o : Obj α) (k : String) (v : α)
    (hmem : k ∈ Obj.keys o) : Obj.keys (Obj.assign o k v) = Obj.keys o := by
  induction o with
  | nil => simp [Obj.keys] at hmem
  | cons kv rest ih =>
    obtain ⟨k1, v1⟩ := kv
    by_cases h : k1 = k
    · simp [Obj.assign, Obj.keys, h]
    · have h2 : ¬ k = k1 := fun e => h e.symm
      have hrest : k ∈ Obj.keys rest := by
        simpa [Obj.keys, h2] using hmem
      have ih2 := ih hrest
      simp only [Obj.keys] at ih2
      simp [Obj.assign, Obj.keys, h, ih2]

theorem Obj.keys_assign_of_not_mem {α : Type} (o : Obj α) (k : String) (v : α)
    (hnot : k ∉ Obj.keys o) : Obj.keys (Obj.assign o k v) = Obj.keys o ++ [k] := by
  induction o with
  | nil => simp [Obj.assign, Obj.keys]
  | cons kv rest ih =>
    obtain ⟨k1, v1⟩ := kv
    have h : ¬ k1 = k := by
      intro e
      apply hnot
      simp [Obj.keys, e]
    have hrest : k ∉ Obj.keys rest := by
      intro hm
      apply hnot
      simp only [Obj.keys] at hm
      simp [Obj.keys, hm]
    have ih2 := ih hrest
    simp only [Obj.keys] at ih2
    simp [Obj.assign, Obj.keys, h, ih2]

theorem Obj.assign_assign_restore {α : Type} (o : Obj α) (k : String) (v old : α)
    (hold : Obj.read o k = some old) : Obj.assign (Obj.assign o k v) k old = o := by
  induction o with
  | nil => simp [Obj.read] at hold
  | cons kv rest ih =>
    obtain ⟨k1, v1⟩ := kv
    by_cases h : k1 = k
    · simp [Obj.read, h] at hold
      simp [Obj.assign, h, hold]
    · simp [Obj.read, h] at hold
      simp [Obj.assign, h, ih hold]

theorem LockMask.mem_keys_of_truthy (locks : LockMask) (key : String)
    (h : locks.truthy key = true) : key ∈ Obj.keys locks := by
  by_contra hnot
  have hnone := (Obj.read_eq_none_iff locks key).mpr hnot
  simp [LockMask.truthy, hnone] at h

theorem Field.key_ne_locks (f : Field) : f.key ≠ "locks" := by
  cases f <;> decide

theorem Field.key_injective (f g : Field) (h : f.key = g.key) : f = g := by
  cases f <;> cases g <;> first | rfl | (exact absurd h (by decide))

theorem Field.key_mem_fieldKeys (f : Field) : f.key ∈ fieldKeys := by
  cases f <;> decide

/-! ## The regenerate loop -/

theorem Person.get_assignFromPrev (result prev : Person) (key k : String) (hk : k ≠ "locks") :
    (assignFromPrev result key prev).get k = if key = k then prev.get k else result.get k := by
  unfold assignFromPrev
  by_cases hl : key = "locks"
  · subst hl
    have hne : ¬ "locks" = k := fun e => hk e.symm
    simp [hne, Person.get]
  · by_cases hkey : key = k
    · subst hkey
      simp [hl, Person.get, Obj.read_assign_self]
    · have hne : k ≠ key := fun e => hkey e.symm
      simp [hl, hkey, Person.get, Obj.read_assign_ne _ _ _ _ hne]

theorem regenerateLoop_locks (prev : Person) (ks : List String) (result : Person)
    (h : result.locks = prev.locks) :
    (ks.foldl
      (fun result key =>
        if prev.locks.truthy key then assignFromPrev result key prev else result)
      result).locks = prev.locks := by
  induction ks generalizing result with
  | nil => simpa using h
  | cons key rest ih =>
    simp only [List.foldl_cons]
    apply ih
    by_cases ht : prev.locks.truthy key = true
    · rw [if_pos ht]
      unfold assignFromPrev
      split <;> simp [h]
    · rw [if_neg ht]
      exact h

theorem regenerateLoop_get (prev : Person) (ks : List String) (result : Person) (k : String)
    (hk : k ≠ "locks") :
    (ks.foldl
      (fun result key =>
        if prev.locks.truthy key then assignFromPrev result key prev else result)
      result).get k
      = if k ∈ ks ∧ prev.locks.truthy k = true then prev.get k else result.get k := by
  induction ks generalizing result with
  | nil => simp
  | cons key rest ih =>
    simp only [List.foldl_cons]
    rw [ih]
    by_cases hin : k ∈ rest ∧ prev.locks.truthy k = true
    · have hin2 : k ∈ key :: rest ∧ prev.locks.truthy k = true :=
        ⟨List.mem_cons_of_mem _ hin.1, hin.2⟩
      simp [hin, hin2]
    · rw [if_neg hin]
      by_cases ht : prev.locks.truthy key = true
      · rw [if_pos ht, Person.get_assignFromPrev _ _ _ _ hk]
        by_cases hkey : key = k
        · subst hkey
          simp [ht]
        · have hnot : ¬ (k ∈ key :: rest ∧ prev.locks.truthy k = true) := by
            rintro ⟨hm, htk⟩
            rcases List.mem_cons.mp hm with e | hm2
            · exact hkey e.symm
            · exact hin ⟨hm2, htk⟩
          rw [if_neg hkey, if_neg hnot]
      · rw [if_neg ht]
        have hnot : ¬ (k ∈ key :: rest ∧ prev.locks.truthy k = true) := by
          rintro ⟨hm, htk⟩
          rcases List.mem_cons.mp hm with e | hm2
          · exact ht (e ▸ htk)
          · exact hin ⟨hm2, htk⟩
        rw [if_neg hnot]

theorem handleGenerateUpdater_locks (newPerson prev : Person) :
    (handleGenerateUpdater newPerson prev).locks = prev.locks := by
  unfold handleGenerateUpdater
  exact regenerateLoop_locks prev _ _ rfl

theorem handleGenerateUpdater_get (newPerson prev : Person) (k : String) (hk : k ≠ "locks") :
    (handleGenerateUpdater newPerson prev).get k
      = if prev.locks.truthy k = true then prev.get k else newPerson.get k := by
  unfold handleGenerateUpdater
  simp only []
  rw [regenerateLoop_get prev _ _ k hk]
  by_cases ht : prev.locks.truthy k = true
  · have hm := LockMask.mem_keys_of_truthy prev.locks k ht
    simp [ht, hm]
  · simp [ht, Person.get]

/-! ## Claims about one update -/

/-- C1: regenerate is a per-field merge.  For every previous state, every
freshly generated person and every field, the state returned by the updater
of handleGenerate holds the previous value of the field when its lock reads
true and the fresh value when it does not. -/
theorem handleGenerate_merges_per_field (prev fresh : Person) (f : Field) :
    (handleGenerateUpdater fresh prev).get f.key
      = if prev.locks.truthy f.key = true then prev.get f.key else fresh.get f.key :=
  handleGenerateUpdater_get fresh prev f.key f.key_ne_locks

/-- C2: regenerate leaves the lock mask unchanged.  For every previous state
and every fresh person, the lock mask of the state returned by the updater of
handleGenerate is the lock mask of the previous state: the same keys in the
same order, each with the same boolean. -/
theorem handleGenerate_keeps_locks (prev fresh : Person) :
    (handleGenerateUpdater fresh prev).locks = prev.locks ∧
      Obj.keys (handleGenerateUpdater fresh prev).locks = Obj.keys prev.locks ∧
      ∀ key : String,
        Obj.read (handleGenerateUpdater fresh prev).locks key = Obj.read prev.locks key := by
  have h := handleGenerateUpdater_locks fresh prev
  exact ⟨h, by rw [h], fun key => by rw [h]⟩

/-- C3: toggling a lock flips exactly that lock.  For every state and every
field f, the state returned by the updater of handleLockToggle(f) has
locks[f] equal to the negation of the previous locks[f], the previous
locks[g] for every other field g, and the previous value of every field. -/
theorem handleLockToggle_flips_only_that_lock (prev : Person) (f : Field) :
    Obj.read (handleLockToggle f.key prev).locks f.key = some (!prev.locks.truthy f.key) ∧
      (∀ g : Field, g ≠ f →
        Obj.read (handleLockToggle f.key prev).locks g.key = Obj.read prev.locks g.key) ∧
      (∀ g : Field, (handleLockToggle f.key prev).get g.key = prev.get g.key) := by
  refine ⟨?_, ?_, ?_⟩
  · simp [handleLockToggle, Obj.read_assign_self]
  · intro g hg
    have hne : g.key ≠ f.key := fun e => hg (Field.key_injective g f e)
    simp [handleLockToggle, Obj.read_assign_ne _ _ _ _ hne]
  · intro g
    simp [handleLockToggle, Person.get]

/-- C8: double toggle is the identity.  For every state whose lock mask has
the key of the field f, applying the updater of handleLockToggle(f) twice
gives a state whose locks[f] is the previous locks[f], whose other locks are
the previous ones and whose field values are the previous ones; the state is
in fact the previous state. -/
theorem handleLockToggle_twice (prev : Person) (f : Field)
    (hkey : f.key ∈ Obj.keys prev.locks) :
    Obj.read (handleLockToggle f.key (handleLockToggle f.key prev)).locks f.key
        = Obj.read prev.locks f.key ∧
      (∀ g : Field, g ≠ f →
        Obj.read (handleLockToggle f.key (handleLockToggle f.key prev)).locks g.key
          = Obj.read prev.locks g.key) ∧
      (∀ g : Field,
        (handleLockToggle f.key (handleLockToggle f.key prev)).get g.key = prev.get g.key) ∧
      handleLockToggle f.key (handleLockToggle f.key prev) = prev := by
  have hsome : ∃ b, Obj.read prev.locks f.key = some b := by
    cases hr : Obj.read prev.locks f.key with
    | none => exact absurd hkey ((Obj.read_eq_none_iff _ _).mp hr)
    | some b => exact ⟨b, rfl⟩
  obtain ⟨b, hb⟩ := hsome
  have hid : handleLockToggle f.key (handleLockToggle f.key prev) = prev := by
    cases prev with
    | mk props locks =>
      simp only [handleLockToggle, LockMask.truthy, Obj.read_assign_self] at hb ⊢
      simp only [hb, Bool.not_not]
      rw [Obj.assign_assign_restore locks f.key (!b) b hb]
  rw [hid]
  exact ⟨rfl, fun _ _ => rfl, fun _ => rfl, rfl⟩

/-- Witness for C8 on the initial state of the example provider, field gender. -/
theorem handleLockToggle_twice_witness :
    Field.gender.key ∈ Obj.keys (generatePerson demoFaker 0).1.locks ∧
      handleLockToggle Field.gender.key
        (handleLockToggle Field.gender.key (generatePerson demoFaker 0).1)
        = (generatePerson demoFaker 0).1 :=
  ⟨by decide,
   (handleLockToggle_twice (generatePerson demoFaker 0).1 Field.gender (by decide)).2.2.2⟩

/-! ## The shape of reachable states -/

theorem Obj.mem_of_read {α : Type} (o : Obj α) (k : String) (v : α)
    (h : Obj.read o k = some v) : (k, v) ∈ o := by
  induction o with
  | nil => simp [Obj.read] at h
  | cons kv rest ih =>
    obtain ⟨k1, v1⟩ := kv
    by_cases hk : k1 = k
    · simp [Obj.read, hk] at h
      simp [hk, h]
    · simp [Obj.read, hk] at h
      exact List.mem_cons_of_mem _ (ih h)

theorem Obj.mem_assign {α : Type} (o : Obj α) (k : String) (v : α) (kv : String × α)
    (h : kv ∈ Obj.assign o k v) : kv ∈ o ∨ kv = (k, v) := by
  induction o with
  | nil =>
    simp [Obj.assign] at h
    exact Or.inr h
  | cons kv1 rest ih =>
    obtain ⟨k1, v1⟩ := kv1
    by_cases hk : k1 = k
    · simp [Obj.assign, hk] at h
      rcases h with h | h
      · exact Or.inr h
      · exact Or.inl (List.mem_cons_of_mem _ h)
    · simp [Obj.assign, hk] at h
      rcases h with h | h
      · exact Or.inl (by simp [h])
      · rcases ih h with h2 | h2
        · exact Or.inl (List.mem_cons_of_mem _ h2)
        · exact Or.inr h2

theorem Person.Shaped.get_isStr {p : Person} (hp : p.Shaped) {k : String}
    (hk : k ∈ fieldKeys) : (p.get k).isStr = true := by
  obtain ⟨hkeys, _, hstr⟩ := hp
  cases hr : Obj.read p.props k with
  | none =>
    have := (Obj.read_eq_none_iff p.props k).mp hr
    rw [hkeys] at this
    exact absurd hk this
  | some v =>
    have hm := Obj.mem_of_read p.props k v hr
    simpa [Person.get, hr] using hstr (k, v) hm

theorem generatePerson_shaped {σ : Type} (faker : Faker σ) (s0 : σ) :
    (generatePerson faker s0).1.Shaped := by
  refine ⟨rfl, rfl, ?_⟩
  intro kv hkv
  simp [generatePerson] at hkv
  rcases hkv with h | h | h | h | h | h | h | h <;> simp [h, Val.isStr]

theorem regenerateLoop_shaped (prev : Person) (hprev : prev.Shaped) (ks : List String)
    (hks : ∀ k ∈ ks, k ∈ fieldKeys) (result : Person)
    (hkeys : Obj.keys result.props = fieldKeys)
    (hstr : ∀ kv ∈ result.props, kv.2.isStr = true) :
    Obj.keys
        (ks.foldl
          (fun result key =>
            if prev.locks.truthy key then assignFromPrev result key prev else result)
          result).props = fieldKeys ∧
      ∀ kv ∈
        (ks.foldl
          (fun result key =>
            if prev.locks.truthy key then assignFromPrev result key prev else result)
          result).props, kv.2.isStr = true := by
  induction ks generalizing result with
  | nil => exact ⟨hkeys, hstr⟩
  | cons key rest ih =>
    simp only [List.foldl_cons]
    have hkey : key ∈ fieldKeys := hks key (List.mem_cons_self _ _)
    have hrest : ∀ k ∈ rest, k ∈ fieldKeys := fun k hk => hks k (List.mem_cons_of_mem _ hk)
    by_cases ht : prev.locks.truthy key = true
    · rw [if_pos ht]
      have hl : key ≠ "locks" := by
        intro e
        rw [e] at hkey
        exact absurd hkey (by decide)
      apply ih hrest
      · simp only [assignFromPrev, if_neg hl]
        rw [Obj.keys_assign_of_mem _ _ _ (by rw [hkeys]; exact hkey)]
        exact hkeys
      · intro kv hkv
        simp only [assignFromPrev, if_neg hl] at hkv
        rcases Obj.mem_assign _ _ _ _ hkv with h | h
        · exact hstr kv h
        · rw [h]
          exact hprev.get_isStr hkey
    · rw [if_neg ht]
      exact ih hrest result hkeys hstr

theorem handleGenerateUpdater_shaped (newPerson prev : Person) (hnew : newPerson.Shaped)
    (hprev : prev.Shaped) : (handleGenerateUpdater newPerson prev).Shaped := by
  have hloop := regenerateLoop_shaped prev hprev (Obj.keys prev.locks)
    (by rw [hprev.2.1]; exact fun _ h => h)
    { props := newPerson.props, locks := prev.locks } hnew.1 hnew.2.2
  refine ⟨hloop.1, ?_, hloop.2⟩
  rw [handleGenerateUpdater_locks]
  exact hprev.2.1

theorem handleLockToggle_shaped (f : Field) (prev : Person) (hprev : prev.Shaped) :
    (handleLockToggle f.key prev).Shaped := by
  refine ⟨hprev.1, ?_, hprev.2.2⟩
  simp only [handleLockToggle]
  rw [Obj.keys_assign_of_mem _ _ _ (by rw [hprev.2.1]; exact f.key_mem_fieldKeys)]
  exact hprev.2.1

theorem step_shaped {σ : Type} (faker : Faker σ) (person : Person) (hp : person.Shaped)
    (e : Event σ) : (step faker person e).Shaped := by
  cases e with
  | generate s =>
    exact handleGenerateUpdater_shaped _ _ (generatePerson_shaped faker s) hp
  | toggle field => exact handleLockToggle_shaped field person hp

theorem foldl_step_shaped {σ : Type} (faker : Faker σ) (events : List (Event σ))
    (person : Person) (hp : person.Shaped) : (events.foldl (step faker) person).Shaped := by
  induction events generalizing person with
  | nil => exact hp
  | cons e rest ih => exact ih _ (step_shaped faker person hp e)

theorem run_shaped {σ : Type} (faker : Faker σ) (s0 : σ) (events : List (Event σ)) :
    (run faker s0 events).Shaped :=
  foldl_step_shaped faker events _ (generatePerson_shaped faker s0)

theorem regenerateAll_locks (fresh : List Person) (person : Person) :
    (regenerateAll fresh person).locks = person.locks := by
  induction fresh generalizing person with
  | nil => rfl
  | cons np rest ih =>
    simp only [regenerateAll, List.foldl_cons] at ih ⊢
    rw [ih, handleGenerateUpdater_locks]

theorem regenerateAll_get_locked (fresh : List Person) (person : Person) (k : String)
    (hk : k ≠ "locks") (hlocked : person.locks.truthy k = true) :
    (regenerateAll fresh person).get k = person.get k := by
  induction fresh generalizing person with
  | nil => rfl
  | cons np rest ih =>
    simp only [regenerateAll, List.foldl_cons] at ih ⊢
    rw [ih _ (by rw [handleGenerateUpdater_locks]; exact hlocked),
      handleGenerateUpdater_get _ _ _ hk, if_pos hlocked]

/-! ## Claims about runs -/

/-- C4: locked values survive any number of regenerations.  Start from the
state produced by generatePerson, click any sequence of lock buttons, then
regenerate with any list of fresh persons: after the first j regenerations,
for every j, each field whose lock read true when the first regeneration
began still has the value it had just before the first one. -/
theorem locked_values_survive_regenerations {σ : Type} (faker : Faker σ) (s0 : σ)
    (fields : List Field) (fresh : List Person) (j : Nat) (f : Field)
    (hlocked : (toggleAll fields (generatePerson faker s0).1).locks.truthy f.key = true) :
    (regenerateAll (fresh.take j) (toggleAll fields (generatePerson faker s0).1)).get f.key
      = (toggleAll fields (generatePerson faker s0).1).get f.key :=
  regenerateAll_get_locked _ _ f.key f.key_ne_locks hlocked

/-- Witness for C4: firstName and city are locked, three regenerations follow,
and firstName is the same after the third as before the first. -/
theorem locked_values_survive_regenerations_witness :
    (toggleAll [Field.firstName, Field.city] (generatePerson demoFaker 0).1).locks.truthy
        Field.firstName.key = true ∧
      (regenerateAll
        ([(generatePerson demoFaker 9).1, (generatePerson demoFaker 17).1,
          (generatePerson demoFaker 26).1].take 3)
        (toggleAll [Field.firstName, Field.city] (generatePerson demoFaker 0).1)).get
          Field.firstName.key
        = (toggleAll [Field.firstName, Field.city] (generatePerson demoFaker 0).1).get
          Field.firstName.key :=
  ⟨by decide,
   locked_values_survive_regenerations demoFaker 0 [Field.firstName, Field.city]
     [(generatePerson demoFaker 9).1, (generatePerson demoFaker 17).1,
      (generatePerson demoFaker 26).1] 3 Field.firstName (by decide)⟩

/-- C7: the lock mask always has exactly the eight field keys.  In the state
returned by generatePerson and in every state reached from it by clicks on
Generate and on the lock buttons of fields, the keys of locks are the eight
field names, and in the initial state each of them is false. -/
theorem lockMask_has_the_eight_keys {σ : Type} (faker : Faker σ) (s0 : σ)
    (events : List (Event σ)) :
    Obj.keys (run faker s0 events).locks
        = ["firstName", "lastName", "gender", "state", "city", "streetAddress", "zipCode",
            "birthdate"] ∧
      ∀ f : Field, Obj.read (generatePerson faker s0).1.locks f.key = some false := by
  refine ⟨(run_shaped faker s0 events).2.1, ?_⟩
  intro f
  cases f <;> rfl

/-! ## The exported text -/

theorem Obj.read_of_mem_nodup {α : Type} (o : Obj α) (hnd : (Obj.keys o).Nodup)
    (k : String) (v : α) (hmem : (k, v) ∈ o) : Obj.read o k = some v := by
  induction o with
  | nil => simp at hmem
  | cons kv rest ih =>
    obtain ⟨k1, v1⟩ := kv
    simp only [Obj.keys, List.map_cons, List.nodup_cons] at hnd
    rcases List.mem_cons.mp hmem with h | h
    · simp only [Prod.mk.injEq] at h
      simp [Obj.read, h.1, h.2]
    · have hne : ¬ k1 = k := by
        intro e
        apply hnd.1
        rw [e]
        exact List.mem_map.mpr ⟨(k, v), h, rfl⟩
      simp only [Obj.read, if_neg hne]
      exact ih hnd.2 h

theorem Person.Shaped.handleCopyAll_eq {p : Person} (hp : p.Shaped) :
    handleCopyAll p
      = "\n".intercalate (fieldKeys.map (fun k => k ++ ": " ++ (p.get k).toText)) := by
  obtain ⟨hkeys, _, _⟩ := hp
  have hnd : (Obj.keys p.props).Nodup := by
    rw [hkeys]
    decide
  have hkeep :
      (p.props.map (fun kv => (kv.1, Entry.val kv.2))).filter (fun kv => kv.1 != "locks")
        = p.props.map (fun kv => (kv.1, Entry.val kv.2)) := by
    apply List.filter_eq_self.mpr
    intro kv hkv
    obtain ⟨kv0, hkv0, rfl⟩ := List.mem_map.mp hkv
    have hin : kv0.1 ∈ fieldKeys := by
      rw [← hkeys]
      exact List.mem_map.mpr ⟨kv0, hkv0, rfl⟩
    have hne : kv0.1 ≠ "locks" := by
      intro e
      rw [e] at hin
      exact absurd hin (by decide)
    simpa using hne
  have hdrop :
      ([("locks", Entry.locks p.locks)] : List (String × Entry)).filter
        (fun kv => kv.1 != "locks") = [] := by
    simp
  have hvals :
      p.props.map (fun kv => kv.1 ++ ": " ++ (Entry.val kv.2).toText)
        = (Obj.keys p.props).map (fun k => k ++ ": " ++ (p.get k).toText) := by
    simp only [Obj.keys, List.map_map]
    apply List.map_congr_left
    intro kv hkv
    have hr := Obj.read_of_mem_nodup p.props hnd kv.1 kv.2 hkv
    simp [Person.get, hr, Entry.toText]
  unfold handleCopyAll Person.entries
  rw [List.filter_append, hkeep, hdrop, List.append_nil, List.map_map]
  have hfun :
      ((fun kv : String × Entry => kv.1 ++ ": " ++ kv.2.toText) ∘
          fun kv : String × Val => (kv.1, Entry.val kv.2))
        = fun kv : String × Val => kv.1 ++ ": " ++ (Entry.val kv.2).toText := rfl
  rw [hfun, hvals, hkeys]

/-! ## Claims about the export, unknown fields and the provider -/

/-- C5, as stated, fails: toggling the unknown identifier postalCode on the
initial state of the example provider changes the lock mask, which gains the
key postalCode with the value true. -/
theorem postalCode_toggle_alters_locks :
    "postalCode" ∉ fieldKeys ∧
      (handleLockToggle "postalCode" (generatePerson demoFaker 0).1).locks
        ≠ (generatePerson demoFaker 0).1.locks ∧
      (handleLockToggle "postalCode" (generatePerson demoFaker 0).1).locks
        = (generatePerson demoFaker 0).1.locks ++ [("postalCode", true)] := by
  decide

/-- C5, amended: toggling an identifier that is not one of the eight field
names is not rejected.  The updater returns a state with the same value for
every field and the same lock for every field, and the identifier is a key of
its lock mask. -/
theorem handleLockToggle_unknown_field (prev : Person) (field : String)
    (hfield : field ∉ fieldKeys) :
    (∀ g : Field, (handleLockToggle field prev).get g.key = prev.get g.key) ∧
      (∀ g : Field,
        Obj.read (handleLockToggle field prev).locks g.key = Obj.read prev.locks g.key) ∧
      field ∈ Obj.keys (handleLockToggle field prev).locks := by
  refine ⟨fun g => rfl, ?_, ?_⟩
  · intro g
    have hne : g.key ≠ field := by
      intro e
      exact hfield (e ▸ g.key_mem_fieldKeys)
    simp [handleLockToggle, Obj.read_assign_ne _ _ _ _ hne]
  · by_contra hnot
    have hnone := (Obj.read_eq_none_iff _ _).mpr hnot
    simp [handleLockToggle, Obj.read_assign_self] at hnone

/-- Witness for the amended C5 at the identifier postalCode. -/
theorem handleLockToggle_unknown_field_witness :
    "postalCode" ∉ fieldKeys ∧
      "postalCode" ∈ Obj.keys (handleLockToggle "postalCode" (generatePerson demoFaker 0).1).locks :=
  ⟨by decide,
   (handleLockToggle_unknown_field (generatePerson demoFaker 0).1 "postalCode" (by decide)).2.2⟩

/-- C6, as stated, fails: on the initial state of the example provider the
copied text lists state, city, streetAddress in that order, which is not the
order in which the fields are rendered. -/
theorem handleCopyAll_order_counterexample :
    handleCopyAll (generatePerson demoFaker 0).1
        = "firstName: Mary\nlastName: Smith\ngender: female\nstate: Ohio\ncity: Dayton\nstreetAddress: 1 Main St\nzipCode: 45402\nbirthdate: 7/4/1990" ∧
      handleCopyAll (generatePerson demoFaker 0).1
        ≠ "\n".intercalate
            (renderOrder.map
              (fun k => k ++ ": " ++ ((generatePerson demoFaker 0).1.get k).toText)) := by
  decide

/-- C6, amended: for the initial state and every state reached by clicks on
Generate and on the lock buttons of fields, the text built by handleCopyAll
is eight entries joined by newline, each the field name, a colon, a space and
the value, without locks, in the order firstName, lastName, gender, state,
city, streetAddress, zipCode, birthdate of the object built by
generatePerson; every value is a string. -/
theorem handleCopyAll_format_and_order {σ : Type} (faker : Faker σ) (s0 : σ)
    (events : List (Event σ)) :
    handleCopyAll (run faker s0 events)
        = "\n".intercalate
            ["firstName: " ++ ((run faker s0 events).get "firstName").toText,
             "lastName: " ++ ((run faker s0 events).get "lastName").toText,
             "gender: " ++ ((run faker s0 events).get "gender").toText,
             "state: " ++ ((run faker s0 events).get "state").toText,
             "city: " ++ ((run faker s0 events).get "city").toText,
             "streetAddress: " ++ ((run faker s0 events).get "streetAddress").toText,
             "zipCode: " ++ ((run faker s0 events).get "zipCode").toText,
             "birthdate: " ++ ((run faker s0 events).get "birthdate").toText] ∧
      ∀ f : Field, ∃ v : String, (run faker s0 events).get f.key = Val.str v := by
  have hp := run_shaped faker s0 events
  refine ⟨hp.handleCopyAll_eq, ?_⟩
  intro f
  have hs := hp.get_isStr f.key_mem_fieldKeys
  cases hv : (run faker s0 events).get f.key with
  | undefined => simp [hv, Val.isStr] at hs
  | str v => exact ⟨v, rfl⟩

/-- C9, as stated, fails: with gender locked at female and firstName
unlocked, a regeneration whose fresh draw of the sex is male yields the first
name John that the provider gives for male, while the provider gives Mary for
female whatever its state; the resulting profile keeps the gender female. -/
theorem locked_gender_counterexample :
    (handleLockToggle "gender" (generatePerson demoFaker 0).1).locks.truthy "gender" = true ∧
      (handleLockToggle "gender" (generatePerson demoFaker 0).1).locks.truthy "firstName"
        = false ∧
      (handleLockToggle "gender" (generatePerson demoFaker 0).1).get "gender"
        = Val.str "female" ∧
      (∀ n : Nat, (demoFaker.firstName "female" n).1 = "Mary") ∧
      (handleGenerate demoFaker 1
          (handleLockToggle "gender" (generatePerson demoFaker 0).1)).1.get "firstName"
        = Val.str "John" ∧
      (handleGenerate demoFaker 1
          (handleLockToggle "gender" (generatePerson demoFaker 0).1)).1.get "gender"
        = Val.str "female" := by
  refine ⟨by decide, by decide, by decide, ?_, by decide, by decide⟩
  intro n
  rfl

/-- C9, amended: for every previous state in which gender is locked and
firstName is unlocked, and for every behaviour of the provider, the firstName
of the state produced by handleGenerate is the first name the provider
returned for the sex freshly drawn in that call, and the gender of that state
is the previous gender. -/
theorem regenerated_firstName_follows_fresh_gender {σ : Type} (faker : Faker σ) (s : σ)
    (prev : Person) (hgender : prev.locks.truthy "gender" = true)
    (hfirst : prev.locks.truthy "firstName" = false) :
    (handleGenerate faker s prev).1.get "firstName"
        = Val.str (faker.firstName (faker.sexType s).1 (faker.sexType s).2).1 ∧
      (handleGenerate faker s prev).1.get "gender" = prev.get "gender" := by
  constructor
  · simp only [handleGenerate]
    rw [handleGenerateUpdater_get _ _ _ (by decide), hfirst]
    rfl
  · simp only [handleGenerate]
    rw [handleGenerateUpdater_get _ _ _ (by decide), if_pos hgender]

/-- Witness for the amended C9 on the example provider. -/
theorem regenerated_firstName_follows_fresh_gender_witness :
    (handleLockToggle "gender" (generatePerson demoFaker 0).1).locks.truthy "gender" = true ∧
      (handleLockToggle "gender" (generatePerson demoFaker 0).1).locks.truthy "firstName"
        = false ∧
      (handleGenerate demoFaker 1
          (handleLockToggle "gender" (generatePerson demoFaker 0).1)).1.get "firstName"
        = Val.str (demoFaker.firstName (demoFaker.sexType 1).1 (demoFaker.sexType 1).2).1 :=
  ⟨by decide, by decide,
   (regenerated_firstName_follows_fresh_gender demoFaker 1
      (handleLockToggle "gender" (generatePerson demoFaker 0).1) (by decide) (by decide)).1⟩

/-- C10: the generator conditions the zip code on the state and the first
name on the gender and omits no field.  For every behaviour of the provider,
the person returned by generatePerson has a string for each of the eight
fields; its firstName is what the firstName operation returned for the sex
drawn before it, which is its gender; its zipCode is what the zipCode
operation returned for the state drawn before it, which is its state. -/
theorem generatePerson_conditions_zip_and_name {σ : Type} (faker : Faker σ) (s0 : σ) :
    let gender := faker.sexType s0
    let firstName := faker.firstName gender.1 gender.2
    let lastName := faker.lastName firstName.2
    let state := faker.state lastName.2
    let city := faker.city state.2
    let streetAddress := faker.streetAddress city.2
    let zipCode := faker.zipCode state.1 streetAddress.2
    (∀ f : Field, ∃ v : String,
        Obj.read (generatePerson faker s0).1.props f.key = some (Val.str v)) ∧
      (generatePerson faker s0).1.get "gender" = Val.str gender.1 ∧
      (generatePerson faker s0).1.get "firstName" = Val.str firstName.1 ∧
      (generatePerson faker s0).1.get "state" = Val.str state.1 ∧
      (generatePerson faker s0).1.get "zipCode" = Val.str zipCode.1 := by
  refine ⟨?_, rfl, rfl, rfl, rfl⟩
  intro f
  cases f <;> exact ⟨_, rfl⟩

end RandomAmerican
